import Mathlib

/-!
Shallow embedding of `src/lambda_csv_processing.py` (the `clean_data` routine and
its helpers) and verification of the specification's claims about it.

Python strings are modelled as `List Char` (`PyStr`); each Python string operation
used by the source is given its own Lean definition, named after the Python
construct it models.  Python exceptions (IndexError during the field-repair pass,
KeyError on a missing column) are modelled as `Option.none`.
-/

namespace LambdaCsv

/-- Python strings, modelled as lists of characters. -/
abbrev PyStr := List Char

/-- Convenience conversion from a Lean string literal to the `PyStr` model. -/
def pys (s : String) : PyStr := s.data

/-- The characters Python's `str.strip()` removes (default whitespace set,
restricted to the ASCII whitespace occurring in CSV data). -/
def pyIsSpace (c : Char) : Bool :=
  c = ' ' || c = '\t' || c = '\n' || c = '\r' || c = '\x0b' || c = '\x0c'

/-- Python `str.strip()`: drop leading and trailing whitespace. -/
def pyStrip (l : PyStr) : PyStr :=
  ((l.dropWhile pyIsSpace).reverse.dropWhile pyIsSpace).reverse

/-- Python `str.replace(c, "")` for a single-character pattern `c`:
removes every occurrence of the character. -/
def removeChar (c : Char) (l : PyStr) : PyStr := l.filter (fun x => x ≠ c)

/-- Python `str.isnumeric()` restricted to the ASCII digits appearing in the
modelled CSV data: true iff the string is nonempty and all characters are digits. -/
def isnumeric (l : PyStr) : Bool := !l.isEmpty && l.all Char.isDigit

/-- Python `str.split(c)` for a single-character separator: splits on every
occurrence of `c`, keeping empty parts; `"".split(c) = [""]`.
The result is always nonempty. -/
def splitOnChar (c : Char) : PyStr → List PyStr
  | [] => [[]]
  | x :: xs =>
    match splitOnChar c xs with
    | [] => [[]]
    | h :: t => if x = c then [] :: h :: t else (x :: h) :: t

/-- Python `s.endswith(c)` for a single character. -/
def endsWithChar (c : Char) (l : PyStr) : Bool := l.getLast? = some c

/-- Python `pat in s` (substring containment); also models
`Series.str.contains(pat)` for the regex-metacharacter-free domain labels
the source passes to it. -/
def containsSub (pat : PyStr) : PyStr → Bool
  | [] => pat.isEmpty
  | c :: rest => pat.isPrefixOf (c :: rest) || containsSub pat rest

/-- Python `str.replace("@@", "@")`: left-to-right, non-overlapping replacement
of each doubled `@` by a single `@` (models line 114 of the source). -/
def collapseAtAt : PyStr → PyStr
  | [] => []
  | [c] => [c]
  | c :: d :: rest =>
    if c = '@' ∧ d = '@' then '@' :: collapseAtAt rest
    else c :: collapseAtAt (d :: rest)

/-- Holds iff the string contains two adjacent `@` characters. -/
def hasDoubleAt : PyStr → Bool
  | [] => false
  | [_] => false
  | c :: d :: rest => (c = '@' && d = '@') || hasDoubleAt (d :: rest)

/-- Holds iff the string contains three adjacent `@` characters. -/
def hasTripleAt : PyStr → Bool
  | [] => false
  | [_] => false
  | [_, _] => false
  | c :: d :: e :: rest => (c = '@' && d = '@' && e = '@') || hasTripleAt (d :: e :: rest)

/-- Python `str.title()` for the ASCII data domain: the first letter of every
maximal alphabetic run is upper-cased, the rest lower-cased (models line 111). -/
def pyTitleAux : Bool → PyStr → PyStr
  | _, [] => []
  | prevAlpha, c :: rest =>
    (if c.isAlpha then (if prevAlpha then c.toLower else c.toUpper) else c)
      :: pyTitleAux c.isAlpha rest

/-- Python `str.title()`. -/
def pyTitle (l : PyStr) : PyStr := pyTitleAux false l

/-- Exact-value dictionary replacement, models `Series.replace(dict)`:
a value equal to some key is replaced by the paired value, all others pass
through unchanged. -/
def applyMap (m : List (PyStr × PyStr)) (s : PyStr) : PyStr :=
  match m with
  | [] => s
  | (k, v) :: rest => if s = k then v else applyMap rest s

/-! ## Income normalization (source lines 95–97) -/

/-- Line 95: `data["Income"].str.replace("$", "")` — remove every `$`. -/
def incomeStripDollar (s : PyStr) : PyStr := removeChar '$' s

/-- Line 96: append `".00"` when the value contains no decimal point. -/
def incomeAppendCents (s : PyStr) : PyStr :=
  if '.' ∈ s then s else s ++ pys ".00"

/-- Line 97: `replace({".00": "unknown"})` — exact-match sentinel substitution. -/
def incomeSentinel (s : PyStr) : PyStr :=
  if s = pys ".00" then pys "unknown" else s

/-- The per-value effect of the three income-cleaning lines 95–97. -/
def clean_income (s : PyStr) : PyStr :=
  incomeSentinel (incomeAppendCents (incomeStripDollar s))

/-! ## Country normalization (source lines 100–108) -/

/-- Line 102–103: the first USA-alias map. -/
def country_usa_map : List (PyStr × PyStr) :=
  [(pys "United States", pys "USA"), (pys "us", pys "USA"),
   (pys " U.S.", pys "USA"), (pys "usa", pys "USA"),
   (pys "United States of America", pys "USA"), (pys "United states", pys "USA"),
   (pys "United Staes", pys "USA"), (pys "US", pys "USA")]

/-- Line 104–106: the second USA-alias map (trailing carriage-return variants). -/
def country_usa_map2 : List (PyStr × PyStr) :=
  [(pys "USA\r", pys "USA"), (pys "United States\r", pys "USA"),
   (pys "us\r", pys "USA"), (pys " U.S.\r", pys "USA"), (pys "usa\r", pys "USA"),
   (pys "United States of America\r", pys "USA"), (pys "United states\r", pys "USA"),
   (pys "United Staes\r", pys "USA"), (pys "US\r", pys "USA")]

/-- The per-value effect of lines 101, 107, 108: strip `\n` characters, then
apply the two alias maps in sequence. -/
def clean_country (s : PyStr) : PyStr :=
  applyMap country_usa_map2 (applyMap country_usa_map (removeChar '\n' s))

/-! ## Age normalization (source line 122) -/

/-- Line 122: `data["Age"].replace("", "unknown")` — exact-match on the empty string. -/
def clean_age (s : PyStr) : PyStr :=
  if s = [] then pys "unknown" else s

/-! ## Field Repair Pass: `extract_income` (source lines 55–62) -/

/-- The numeric pattern of line 58, evaluated on fields 4 and 5 (read with a
default that is only reachable when the fields exist). -/
def incomePattern (row : List PyStr) : Bool :=
  isnumeric (pyStrip (removeChar '$' (row.getD 4 []))) && isnumeric (pyStrip (row.getD 5 []))

/-- The body of the `for` loop of `extract_income` for one row (lines 58–61).
`none` models the `IndexError` Python raises when `row[4]`, `row[5]` or `row[6]`
is accessed out of range; the `and` of line 58 short-circuits, so `row[5]` is
only read when the first conjunct is true and `row[6]` only when both are. -/
def repair_row (row : List PyStr) : Option (List PyStr) :=
  match row.get? 4 with
  | none => none
  | some f4 =>
    if isnumeric (pyStrip (removeChar '$' f4)) then
      match row.get? 5 with
      | none => none
      | some f5 =>
        if isnumeric (pyStrip f5) then
          match row.get? 6 with
          | none => none
          | some f6 => some (((row.set 4 (f4 ++ f5)).set 5 f6).eraseIdx 6)
        else some row
    else some row

/-- Lines 55–62, `extract_income`: repair every row (the header row included);
an `IndexError` on any row aborts the whole pass. -/
def extract_income (data : List (List PyStr)) : Option (List (List PyStr)) :=
  data.mapM repair_row

/-! ## Email subdomain inference: `assume_subdomains` (source lines 64–87) -/

/-- Lines 66–67: take the text after the last `@`, remove a trailing `.` if
present, and split the remainder on `.` into its labels. -/
def domain_and_subdomain (s : PyStr) : List PyStr :=
  let dom := (splitOnChar '@' s).getLastD []
  if endsWithChar '.' dom then splitOnChar '.' dom.dropLast else splitOnChar '.' dom

/-- Distinct values of a list in order of first occurrence. -/
def dedupFirst (l : List PyStr) : List PyStr :=
  l.foldl (fun acc v => if v ∈ acc then acc else acc ++ [v]) []

/-- Model of `value_counts().index[0]` of lines 75–77: the most frequent value, ties
broken in favour of the earlier first occurrence; `none` on an empty list. -/
def mostFrequent (l : List PyStr) : Option PyStr :=
  (dedupFirst l).foldl
    (fun acc v =>
      match acc with
      | none => some v
      | some b => if l.count b < l.count v then some v else some b)
    none

/-- Lines 74–77 and the `else` default of line 85: the subdomain label to
insert for `label` — the most frequent element at index 1 of the label-lists
of length above one that contain `label`, defaulting to `"com"`. -/
def bestLabel (dands : List (List PyStr)) (label : PyStr) : PyStr :=
  match mostFrequent ((dands.filter (fun x => x.contains label && x.length > 1)).map
      (fun x => x.getD 1 [])) with
  | some b => b
  | none => pys "com"

/-- One iteration of the `for label in domain_labels` loop (lines 72–85):
`noSub` and `dands` are the masks/label-lists precomputed before the loop
(they are not recomputed as the column mutates), while the membership test
`column.str.contains(label)` of lines 78/83 runs on the current column. -/
def fillStep (noSub : List Bool) (dands : List (List PyStr))
    (cur : List PyStr) (label : PyStr) : List PyStr :=
  List.zipWith
    (fun flag x =>
      if flag && containsSub label x then
        (if endsWithChar '.' x then x ++ bestLabel dands label
         else x ++ '.' :: bestLabel dands label)
      else x)
    noSub cur

/-- Lines 64–87, `assume_subdomains`: strip each value, compute the
domain-label lists, and for each single-label domain append the inferred
subdomain/suffix to the matching rows. -/
def assume_subdomains (col0 : List PyStr) : List PyStr :=
  let col := col0.map pyStrip
  let dands := col.map domain_and_subdomain
  let noSub := dands.map (fun x => x.length == 1)
  let labels := (dands.filter (fun x => x.length == 1)).map (fun x => x.getD 0 [])
  labels.foldl (fillStep noSub dands) col

/-- Line 116: `replace({".com": "unknown"})` — exact-match sentinel substitution. -/
def emailSentinel (s : PyStr) : PyStr :=
  if s = pys ".com" then pys "unknown" else s

/-- The whole email-cleaning block, lines 114–116. -/
def clean_email_column (col : List PyStr) : List PyStr :=
  (assume_subdomains (col.map collapseAtAt)).map emailSentinel

/-! ## Date standardization: `standardize_dates` (source lines 43–53)

The parser called on line 48 is `dateutil.parser.parse(date, dayfirst=True)`,
an external library whose code is not part of this repository; it is modelled
from the spec below. -/

/-- Gregorian leap-year rule. -/
def isLeap (y : Nat) : Bool := (y % 4 == 0 && y % 100 != 0) || (y % 400 == 0)

/-- Days in a month of the Gregorian calendar. -/
def daysInMonth (y m : Nat) : Nat :=
  if m = 2 then (if isLeap y then 29 else 28)
  else if m = 4 || m = 6 || m = 9 || m = 11 then 30 else 31

/-- Numeric value of a digit string. -/
def digitsVal (l : PyStr) : Nat := l.foldl (fun a c => a * 10 + (c.toNat - 48)) 0

/-- A valid calendar date (year at least 1, as in Python's `datetime`). -/
def validDate (y m d : Nat) : Bool :=
  1 ≤ y && 1 ≤ m && m ≤ 12 && 1 ≤ d && d ≤ daysInMonth y m

/-- Modelled from the spec: `dateutil.parser.parse(date, dayfirst=True)` is an
external dependency not under `src/`; per the spec it parses a value as a
calendar date "preferring day-before-month interpretation when ambiguous
(e.g., `03/04/2020` → day=3, month=4)" and fails on malformed values.  The
model accepts `a/b/y` with one- or two-digit `a`, `b` and a four-digit year,
reads `a` as the day and `b` as the month, and only when `b` cannot be a month
(`b > 12`) falls back to month `a`, day `b`; any invalid date is a failure
(`none`, modelling the `ValueError` caught on line 50). -/
def parseDayfirst (s : PyStr) : Option (Nat × Nat × Nat) :=
  match splitOnChar '/' s with
  | [p1, p2, p3] =>
    if isnumeric p1 && p1.length ≤ 2 && isnumeric p2 && p2.length ≤ 2
        && isnumeric p3 && p3.length == 4 then
      let a := digitsVal p1
      let b := digitsVal p2
      let y := digitsVal p3
      if b ≤ 12 then (if validDate y b a then some (y, b, a) else none)
      else if a ≤ 12 then (if validDate y a b then some (y, a, b) else none)
      else none
    else none
  | _ => none

/-- Two-digit zero-padded decimal rendering (as in `strftime("%m")`/`("%d")`). -/
def pad2 (n : Nat) : PyStr := if n < 10 then '0' :: Nat.toDigits 10 n else Nat.toDigits 10 n

/-- Four-digit zero-padded decimal rendering (as in `strftime("%Y")`). -/
def pad4 (n : Nat) : PyStr :=
  if n < 10 then '0' :: '0' :: '0' :: Nat.toDigits 10 n
  else if n < 100 then '0' :: '0' :: Nat.toDigits 10 n
  else if n < 1000 then '0' :: Nat.toDigits 10 n
  else Nat.toDigits 10 n

/-- Format `strftime("%Y-%m-%d")` of line 49. -/
def fmtDate (y m d : Nat) : PyStr := pad4 y ++ '-' :: pad2 m ++ '-' :: pad2 d

/-- Lines 43–53, `standardize_dates`: parse each value day-first and reformat;
on parse failure emit the sentinel `"unknown"` (the `except` of line 50). -/
def standardize_dates (ds : List PyStr) : List PyStr :=
  ds.map (fun date =>
    match parseDayfirst date with
    | some (y, m, d) => fmtDate y m d
    | none => pys "unknown")

/-! ## The Record Table and the column steps of `clean_data` (lines 90–124)

A pandas `DataFrame` built on line 92 is modelled as a header (the column
names, `data[0]`) plus the data rows.  `data["X"]` reads the column whose name
first matches `X`; reading a missing column raises `KeyError`, modelled as
`none`. -/

/-- The Record Table: header names and data rows. -/
structure Table where
  header : List PyStr
  rows : List (List PyStr)
deriving DecidableEq

/-- Position of a column name in the header (first match), `none` if absent. -/
def colIdx (t : Table) (name : PyStr) : Option Nat :=
  t.header.findIdx? (fun h => h = name)

/-- Reading `data[name]`: the named column as a list of values (`none` = `KeyError`). -/
def getCol (t : Table) (name : PyStr) : Option (List PyStr) :=
  (colIdx t name).map (fun i => t.rows.map (fun r => r.getD i []))

/-- Assignment `data[name] = F(data[name])`: read the named column, transform it, and
write it back in place; `none` models the `KeyError` of the read. -/
def setColWith (name : PyStr) (F : List PyStr → List PyStr) (t : Table) : Option Table :=
  (colIdx t name).map (fun i =>
    { header := t.header,
      rows := List.zipWith (fun r v => r.set i v) t.rows
        (F (t.rows.map (fun r => r.getD i []))) })

/-- Lines 95–97: the Income column step. -/
def step_income (t : Table) : Option Table :=
  setColWith (pys "Income") (fun col => col.map clean_income) t

/-- Line 100 rename map entry for one header name. -/
def renameCountryHeader (h : PyStr) : PyStr :=
  if h = pys "Country\n" || h = pys "Country\r\n" then pys "Country" else h

/-- Line 100 applied to the whole header; rows are untouched. -/
def rename_country (t : Table) : Table :=
  { header := t.header.map renameCountryHeader, rows := t.rows }

/-- Lines 100–108: the Country column step (rename, then clean the values). -/
def step_country (t : Table) : Option Table :=
  setColWith (pys "Country") (fun col => col.map clean_country) (rename_country t)

/-- Line 111: the Name column step. -/
def step_name (t : Table) : Option Table :=
  setColWith (pys "Name") (fun col => col.map pyTitle) t

/-- Lines 114–116: the Email column step. -/
def step_email (t : Table) : Option Table :=
  setColWith (pys "Email") clean_email_column t

/-- Line 119: the Date of Birth column step. -/
def step_date (t : Table) : Option Table :=
  setColWith (pys "Date of Birth") standardize_dates t

/-- Line 122: the Age column step. -/
def step_age (t : Table) : Option Table :=
  setColWith (pys "Age") (fun col => col.map clean_age) t

/-- Lines 33–124, `clean_data`: split each raw line on `,` (line 90), run the
Field Repair Pass (line 91), build the Record Table from the header row and
the data rows (line 92), then apply the six column steps in order.  `none`
models an uncaught exception anywhere in the pipeline. -/
def clean_data (raw_text : List PyStr) : Option Table :=
  let data := raw_text.map (splitOnChar ',')
  match extract_income data with
  | none => none
  | some [] => none
  | some (hdr :: body) =>
    (step_income { header := hdr, rows := body }).bind (fun t1 =>
    (step_country t1).bind (fun t2 =>
    (step_name t2).bind (fun t3 =>
    (step_email t3).bind (fun t4 =>
    (step_date t4).bind step_age))))

/-! ## General helper lemmas -/

theorem getD_map_lt {α β : Type} (f : α → β) {l : List α} {i : Nat}
    (h : i < l.length) (d : α) (e : β) : (l.map f).getD i e = f (l.getD i d) := by
  rw [List.getD_eq_getElem?_getD, List.getD_eq_getElem?_getD, List.getElem?_map,
    List.getElem?_eq_getElem h]
  rfl

theorem mem_removeChar {c x : Char} {l : PyStr} : x ∈ removeChar c l ↔ x ∈ l ∧ x ≠ c := by
  simp [removeChar]

theorem removeChar_eq_self {c : Char} {l : PyStr} (h : c ∉ l) : removeChar c l = l := by
  rw [removeChar, List.filter_eq_self]
  intro a ha
  simp only [ne_eq, decide_eq_true_eq]
  rintro rfl
  exact h ha

theorem removeChar_idem (c : Char) (l : PyStr) :
    removeChar c (removeChar c l) = removeChar c l :=
  removeChar_eq_self (fun hmem => (mem_removeChar.mp hmem).2 rfl)

/-! ## Lemmas about the income normalizer -/

theorem dot_mem_incomeAppendCents (s : PyStr) : '.' ∈ incomeAppendCents s := by
  rw [incomeAppendCents]
  split
  · assumption
  · exact List.mem_append_right _ (by decide)

theorem dollar_not_mem_incomeAppendCents (s : PyStr) (h : '$' ∉ s) :
    '$' ∉ incomeAppendCents s := by
  rw [incomeAppendCents]
  split
  · exact h
  · intro hm
    rcases List.mem_append.mp hm with h1 | h2
    · exact h h1
    · exact absurd h2 (by decide)

theorem clean_income_eq_of_ne (s : PyStr) (h : clean_income s ≠ pys "unknown") :
    clean_income s = incomeAppendCents (incomeStripDollar s)
    ∧ incomeAppendCents (incomeStripDollar s) ≠ pys ".00" := by
  rw [clean_income, incomeSentinel] at h ⊢
  by_cases hq : incomeAppendCents (incomeStripDollar s) = pys ".00"
  · rw [if_pos hq] at h
    exact absurd rfl h
  · rw [if_neg hq]
    exact ⟨rfl, hq⟩

theorem clean_income_idem (s : PyStr) (h : clean_income s ≠ pys "unknown") :
    clean_income (clean_income s) = clean_income s := by
  obtain ⟨heq, hne⟩ := clean_income_eq_of_ne s h
  have hdollar : '$' ∉ incomeAppendCents (incomeStripDollar s) :=
    dollar_not_mem_incomeAppendCents _ (fun hm => (mem_removeChar.mp hm).2 rfl)
  have hdot : '.' ∈ incomeAppendCents (incomeStripDollar s) := dot_mem_incomeAppendCents _
  rw [heq, clean_income, incomeStripDollar, removeChar_eq_self hdollar, incomeAppendCents,
    if_pos hdot, incomeSentinel, if_neg hne]

/-! ## Lemmas about the country normalizer -/

theorem applyMap_eq_of_not_mem {m : List (PyStr × PyStr)} {s : PyStr}
    (h : s ∉ m.map Prod.fst) : applyMap m s = s := by
  induction m with
  | nil => rfl
  | cons p rest ih =>
    rcases p with ⟨k, v⟩
    rw [applyMap, if_neg, ih]
    · intro hm
      exact h (List.mem_cons_of_mem _ hm)
    · rintro rfl
      exact h (List.mem_cons_self _ _)

theorem applyMap_mem_snd_of_mem {m : List (PyStr × PyStr)} {s : PyStr}
    (h : s ∈ m.map Prod.fst) : applyMap m s ∈ m.map Prod.snd := by
  induction m with
  | nil => simp at h
  | cons p rest ih =>
    rcases p with ⟨k, v⟩
    rw [applyMap]
    by_cases hk : s = k
    · rw [if_pos hk]
      exact List.mem_cons_self _ _
    · rw [if_neg hk]
      refine List.mem_cons_of_mem _ (ih ?_)
      rcases List.mem_cons.mp h with h | h
      · exact absurd h hk
      · exact h

theorem country_map_values {b : PyStr} (h : b ∈ country_usa_map.map Prod.snd) :
    b = pys "USA" := by
  simpa [country_usa_map] using h

theorem country_map2_values {b : PyStr} (h : b ∈ country_usa_map2.map Prod.snd) :
    b = pys "USA" := by
  simpa [country_usa_map2] using h

theorem clean_country_cases (s : PyStr) :
    clean_country s = pys "USA"
    ∨ (clean_country s = removeChar '\n' s
        ∧ removeChar '\n' s ∉ country_usa_map.map Prod.fst
        ∧ removeChar '\n' s ∉ country_usa_map2.map Prod.fst) := by
  rw [clean_country]
  by_cases h1 : removeChar '\n' s ∈ country_usa_map.map Prod.fst
  · left
    rw [country_map_values (applyMap_mem_snd_of_mem h1)]
    decide
  · rw [applyMap_eq_of_not_mem h1]
    by_cases h2 : removeChar '\n' s ∈ country_usa_map2.map Prod.fst
    · left
      exact country_map2_values (applyMap_mem_snd_of_mem h2)
    · right
      exact ⟨applyMap_eq_of_not_mem h2, h1, h2⟩

theorem clean_country_idem (s : PyStr) :
    clean_country (clean_country s) = clean_country s := by
  rcases clean_country_cases s with h | ⟨h, h1, h2⟩
  · rw [h]
    decide
  · rw [h, clean_country, removeChar_idem, applyMap_eq_of_not_mem h1,
      applyMap_eq_of_not_mem h2]

theorem clean_age_idem (s : PyStr) : clean_age (clean_age s) = clean_age s := by
  by_cases h : s = []
  · subst h
    decide
  · have hs : clean_age s = s := by rw [clean_age, if_neg h]
    rw [hs, hs]

/-! ## Characterization of the Field Repair Pass on one row -/

theorem repair_row_char (row : List PyStr) :
    repair_row row =
      if 4 < row.length then
        if isnumeric (pyStrip (removeChar '$' (row.getD 4 []))) = true then
          if 5 < row.length then
            if isnumeric (pyStrip (row.getD 5 [])) = true then
              if 6 < row.length then
                some (((row.set 4 (row.getD 4 [] ++ row.getD 5 [])).set 5
                  (row.getD 6 [])).eraseIdx 6)
              else none
            else some row
          else none
        else some row
      else none := by
  unfold repair_row
  by_cases h4 : 4 < row.length
  · have e4 : row.get? 4 = some (row.getD 4 []) := by
      rw [List.get?_eq_getElem?, List.getD_eq_getElem?_getD,
        List.getElem?_eq_getElem h4]
      rfl
    rw [e4]
    simp only [h4, if_true]
    by_cases c1 : isnumeric (pyStrip (removeChar '$' (row.getD 4 []))) = true
    · simp only [c1, if_true]
      by_cases h5 : 5 < row.length
      · have e5 : row.get? 5 = some (row.getD 5 []) := by
          rw [List.get?_eq_getElem?, List.getD_eq_getElem?_getD,
            List.getElem?_eq_getElem h5]
          rfl
        rw [e5]
        simp only [h5, if_true]
        by_cases c2 : isnumeric (pyStrip (row.getD 5 [])) = true
        · simp only [c2, if_true]
          by_cases h6 : 6 < row.length
          · have e6 : row.get? 6 = some (row.getD 6 []) := by
              rw [List.get?_eq_getElem?, List.getD_eq_getElem?_getD,
                List.getElem?_eq_getElem h6]
              rfl
            rw [e6]
            simp only [h6, if_true]
          · have e6 : row.get? 6 = none := by
              rw [List.get?_eq_getElem?, List.getElem?_eq_none]
              omega
            rw [e6]
            simp only [h6, if_false]
        · rw [if_neg c2, if_neg c2]
      · have e5 : row.get? 5 = none := by
          rw [List.get?_eq_getElem?, List.getElem?_eq_none]
          omega
        rw [e5]
        simp only [h5, if_false]
    · rw [if_neg c1, if_neg c1]
  · have e4 : row.get? 4 = none := by
      rw [List.get?_eq_getElem?, List.getElem?_eq_none]
      omega
    rw [e4]
    simp only [h4, if_false]

/-! ## Lemmas about the subdomain-inference loop -/

theorem fillStep_length (noSub : List Bool) (dands : List (List PyStr))
    (cur : List PyStr) (label : PyStr) :
    (fillStep noSub dands cur label).length = min noSub.length cur.length := by
  rw [fillStep, List.length_zipWith]

theorem fillStep_getD_flag_false {noSub : List Bool} {dands : List (List PyStr)}
    {cur : List PyStr} {label : PyStr} {i : Nat}
    (hi : i < cur.length) (hlen : noSub.length = cur.length)
    (hflag : noSub.getD i false = false) :
    (fillStep noSub dands cur label).getD i [] = cur.getD i [] := by
  have hib : i < noSub.length := by omega
  have e1 : noSub[i]? = some false := by
    rw [List.getD_eq_getElem?_getD, List.getElem?_eq_getElem hib] at hflag
    rw [List.getElem?_eq_getElem hib]
    exact congrArg some hflag
  have e2 : cur[i]? = some (cur.getD i []) := by
    rw [List.getD_eq_getElem?_getD, List.getElem?_eq_getElem hi]
    rfl
  rw [fillStep, List.getD_eq_getElem?_getD, List.getElem?_zipWith, e1, e2]
  simp

theorem foldl_fillStep_length (noSub : List Bool) (dands : List (List PyStr))
    (labels : List PyStr) (cur : List PyStr) (hlen : noSub.length = cur.length) :
    (labels.foldl (fillStep noSub dands) cur).length = cur.length := by
  induction labels generalizing cur with
  | nil => rfl
  | cons lb rest ih =>
    rw [List.foldl_cons]
    have hfl : (fillStep noSub dands cur lb).length = cur.length := by
      rw [fillStep_length, hlen, Nat.min_self]
    rw [ih (fillStep noSub dands cur lb) (by rw [hfl, hlen]), hfl]

theorem foldl_fillStep_getD {noSub : List Bool} {dands : List (List PyStr)} {i : Nat}
    (labels : List PyStr) (cur : List PyStr)
    (hlen : noSub.length = cur.length) (hi : i < cur.length)
    (hflag : noSub.getD i false = false) :
    (labels.foldl (fillStep noSub dands) cur).getD i [] = cur.getD i [] := by
  induction labels generalizing cur with
  | nil => rfl
  | cons lb rest ih =>
    rw [List.foldl_cons]
    have hfl : (fillStep noSub dands cur lb).length = cur.length := by
      rw [fillStep_length, hlen, Nat.min_self]
    rw [ih (fillStep noSub dands cur lb) (by rw [hfl, hlen]) (by rw [hfl]; exact hi),
      fillStep_getD_flag_false hi hlen hflag]

theorem assume_subdomains_length (col0 : List PyStr) :
    (assume_subdomains col0).length = col0.length := by
  rw [assume_subdomains, foldl_fillStep_length, List.length_map]
  rw [List.length_map, List.length_map, List.length_map]

/-! ## Lemmas about the doubled-at collapse -/

theorem hasTripleAt_tail {c : Char} {l : PyStr} (h : hasTripleAt (c :: l) = false) :
    hasTripleAt l = false := by
  match l with
  | [] => rfl
  | [d] => rfl
  | d :: e :: rest =>
    rw [hasTripleAt] at h
    exact (Bool.or_eq_false_iff.mp h).2

theorem collapseAtAt_head? (l : PyStr) : (collapseAtAt l).head? = l.head? := by
  match l with
  | [] => rfl
  | [c] => rfl
  | c :: d :: rest =>
    rw [collapseAtAt]
    split
    · next hcd =>
      rw [hcd.1]
      rfl
    · rfl

theorem collapse_no_double (l : PyStr) :
    hasTripleAt l = false → hasDoubleAt (collapseAtAt l) = false := by
  induction l using collapseAtAt.induct with
  | case1 =>
    intro _
    rfl
  | case2 c =>
    intro _
    rfl
  | case3 c d rest hcd ih =>
    intro h
    obtain ⟨rfl, rfl⟩ := hcd
    rw [collapseAtAt, if_pos ⟨rfl, rfl⟩]
    have hrest : hasTripleAt rest = false := hasTripleAt_tail (hasTripleAt_tail h)
    cases hcr : collapseAtAt rest with
    | nil => rfl
    | cons x xs =>
      have hx : x ≠ '@' := by
        cases rest with
        | nil => simp [collapseAtAt] at hcr
        | cons e r2 =>
          have hex : (x :: xs).head? = (e :: r2).head? := by
            rw [← hcr]
            exact collapseAtAt_head? _
          have hxe : x = e := by simpa using hex
          subst hxe
          rw [hasTripleAt] at h
          intro hxat
          subst hxat
          simp at h
      rw [hasDoubleAt]
      have h2 : hasDoubleAt (x :: xs) = false := by
        rw [← hcr]
        exact ih hrest
      simp [hx, h2]
  | case4 c d rest hcd ih =>
    intro h
    rw [collapseAtAt, if_neg hcd]
    have hrest : hasTripleAt (d :: rest) = false := hasTripleAt_tail h
    cases hcr : collapseAtAt (d :: rest) with
    | nil =>
      have hhd : ([] : PyStr).head? = (d :: rest).head? := by
        rw [← hcr]
        exact collapseAtAt_head? _
      simp at hhd
    | cons x xs =>
      have hex : (x :: xs).head? = (d :: rest).head? := by
        rw [← hcr]
        exact collapseAtAt_head? _
      have hxd : x = d := by simpa using hex
      rw [hasDoubleAt]
      have h2 : hasDoubleAt (x :: xs) = false := by
        rw [← hcr]
        exact ih hrest
      have hnot : (decide (c = '@') && decide (x = '@')) = false := by
        by_cases hc : c = '@'
        · by_cases hd : x = '@'
          · rw [hxd] at hd
            exact absurd ⟨hc, hd⟩ hcd
          · simp [hd]
        · simp [hc]
      rw [h2, hnot]
      rfl

/-! ## Lemmas about the Record Table and column steps -/

theorem colIdx_getD_eq {t : Table} {name : PyStr} {i : Nat}
    (h : colIdx t name = some i) :
    i < t.header.length ∧ t.header.getD i [] = name := by
  rw [colIdx] at h
  obtain ⟨hlt, hfi⟩ := List.findIdx?_eq_some_iff_findIdx_eq.mp h
  refine ⟨hlt, ?_⟩
  have hlt2 : List.findIdx (fun hh => decide (hh = name)) t.header < t.header.length := by
    rw [hfi]
    exact hlt
  have h3 := @List.findIdx_getElem _ (fun hh => decide (hh = name)) t.header hlt2
  rw [List.getD_eq_getElem?_getD, List.getElem?_eq_getElem hlt]
  have h4 : t.header.get ⟨List.findIdx (fun hh => decide (hh = name)) t.header, hlt2⟩
      = name := of_decide_eq_true h3
  have h5 : t.header.get ⟨i, hlt⟩ = name := by
    subst hfi
    exact h4
  exact h5

theorem colIdx_ne {t : Table} {name name' : PyStr} {i i' : Nat}
    (h : colIdx t name = some i) (h' : colIdx t name' = some i') (hne : name' ≠ name) :
    i' ≠ i := by
  intro he
  subst he
  have h1 := (colIdx_getD_eq h).2
  have h2 := (colIdx_getD_eq h').2
  exact hne (by rw [← h2, h1])

theorem setColWith_frame {name name' : PyStr} {F : List PyStr → List PyStr}
    (hF : ∀ colv : List PyStr, (F colv).length = colv.length)
    {t t' : Table} (hstep : setColWith name F t = some t') (hne : name' ≠ name) :
    getCol t' name' = getCol t name' ∧ t'.header = t.header := by
  rw [setColWith] at hstep
  cases hidx : colIdx t name with
  | none =>
    rw [hidx] at hstep
    simp at hstep
  | some i =>
    rw [hidx] at hstep
    have ht' := (Option.some.inj hstep).symm
    subst ht'
    refine ⟨?_, rfl⟩
    cases hidx' : colIdx t name' with
    | none =>
      rw [getCol, getCol, colIdx, colIdx]
      dsimp only
      rw [colIdx] at hidx'
      rw [hidx']
      rfl
    | some i' =>
      have hii : i' ≠ i := colIdx_ne hidx hidx' hne
      rw [getCol, getCol, colIdx, colIdx]
      dsimp only
      rw [colIdx] at hidx'
      rw [hidx']
      have hlenF : (F (t.rows.map (fun r => r.getD i []))).length = t.rows.length := by
        rw [hF, List.length_map]
      refine congrArg some ?_
      apply List.ext_getElem
      · rw [List.length_map, List.length_map, List.length_zipWith, hlenF, Nat.min_self]
      · intro n h1 h2
        rw [List.getElem_map, List.getElem_map, List.getElem_zipWith]
        rw [List.getD_eq_getElem?_getD, List.getD_eq_getElem?_getD,
          List.getElem?_set_ne hii.symm]

theorem renameCountryHeader_eq_self {hh : PyStr}
    (h1 : hh ≠ pys "Country\n") (h2 : hh ≠ pys "Country\r\n") :
    renameCountryHeader hh = hh := by
  rw [renameCountryHeader]
  split
  · next hcond =>
    exfalso
    simp only [Bool.or_eq_true, decide_eq_true_eq] at hcond
    rcases hcond with h | h
    · exact h1 h
    · exact h2 h
  · rfl

theorem colIdx_rename {t : Table} {name' : PyStr}
    (h1 : name' ≠ pys "Country") (h2 : name' ≠ pys "Country\n")
    (h3 : name' ≠ pys "Country\r\n") :
    colIdx (rename_country t) name' = colIdx t name' := by
  rw [colIdx, colIdx, rename_country]
  dsimp only
  rw [List.findIdx?_map]
  congr 1
  funext hh
  show decide (renameCountryHeader hh = name') = decide (hh = name')
  by_cases hcn : hh = pys "Country\n"
  · subst hcn
    have hr : renameCountryHeader (pys "Country\n") = pys "Country" := by decide
    rw [hr, decide_eq_false (fun he => h1 he.symm),
      decide_eq_false (fun he => h2 he.symm)]
  · by_cases hcrn : hh = pys "Country\r\n"
    · subst hcrn
      have hr : renameCountryHeader (pys "Country\r\n") = pys "Country" := by decide
      rw [hr, decide_eq_false (fun he => h1 he.symm),
        decide_eq_false (fun he => h3 he.symm)]
    · rw [renameCountryHeader_eq_self hcn hcrn]

theorem getCol_rename {t : Table} {name' : PyStr}
    (h1 : name' ≠ pys "Country") (h2 : name' ≠ pys "Country\n")
    (h3 : name' ≠ pys "Country\r\n") :
    getCol (rename_country t) name' = getCol t name' := by
  rw [getCol, getCol, colIdx_rename h1 h2 h3]
  rfl

theorem rename_country_header_getD (t : Table) (j : Nat)
    (h1 : t.header.getD j [] ≠ pys "Country\n")
    (h2 : t.header.getD j [] ≠ pys "Country\r\n") :
    (rename_country t).header.getD j [] = t.header.getD j [] := by
  rw [rename_country]
  dsimp only
  by_cases hj : j < t.header.length
  · rw [getD_map_lt renameCountryHeader hj [] []]
    exact renameCountryHeader_eq_self h1 h2
  · rw [List.getD_eq_getElem?_getD, List.getD_eq_getElem?_getD,
      List.getElem?_eq_none (by rw [List.length_map]; omega),
      List.getElem?_eq_none (by omega)]

/-! ## The claims -/

/-- C1 (corrected).  The claim says an email whose domain has no subdomain —
"a single label before the top-level suffix, e.g. `foo.com`" — gets the most
common subdomain inserted before the base label, so that `"a@foo.com"` next to
`"b@mail.foo.com"` becomes `"a@mail.foo.com"`.  In the code the "no subdomain"
mask is `domain_and_subdomain.str.len() == 1`: it selects domains that split
into exactly ONE label (no dot at all, e.g. `a@gmail`), not two.  Amended, in
five parts matching the conjunction below: (1) rows whose (stripped) domain
splits into more than one label are only whitespace-stripped, never modified;
(2) the inference is a loop running `fillStep` once per initially single-label
row's label, duplicates included; (3) each iteration appends `"."` plus the
inferred label (`bestLabel`, the most frequent index-1 label among domain
lists of length above one containing the label, defaulting to `"com"`, without
the dot if the value ends in `"."`) to exactly the rows initially flagged
single-label whose current value contains the label, leaving all other rows
of that iteration unchanged; so (4) `"a@gmail"` next to `"b@gmail.com"`
becomes `"a@gmail.com"`, while (5) duplicated single-label domains are filled
once per duplicate: `["a@gmail", "b@gmail"]` ends as
`["a@gmail.com.com", "b@gmail.com.com"]`. -/
theorem C1_subdomain_amended (col cur : List PyStr) (noSub : List Bool)
    (dands : List (List PyStr)) (label : PyStr) (i : Nat) :
    (i < col.length →
      (domain_and_subdomain (pyStrip (col.getD i []))).length ≠ 1 →
      (assume_subdomains col).getD i [] = pyStrip (col.getD i []))
    ∧ (assume_subdomains col =
        ((((col.map pyStrip).map domain_and_subdomain).filter
            (fun x => x.length == 1)).map (fun x => x.getD 0 [])).foldl
          (fillStep (((col.map pyStrip).map domain_and_subdomain).map
            (fun x => x.length == 1)) ((col.map pyStrip).map domain_and_subdomain))
          (col.map pyStrip))
    ∧ (i < cur.length → noSub.length = cur.length →
      (fillStep noSub dands cur label).getD i [] =
        if noSub.getD i false && containsSub label (cur.getD i []) then
          (if endsWithChar '.' (cur.getD i []) then cur.getD i [] ++ bestLabel dands label
           else cur.getD i [] ++ '.' :: bestLabel dands label)
        else cur.getD i [])
    ∧ assume_subdomains [pys "a@gmail", pys "b@gmail.com"]
        = [pys "a@gmail.com", pys "b@gmail.com"]
    ∧ assume_subdomains [pys "a@gmail", pys "b@gmail"]
        = [pys "a@gmail.com.com", pys "b@gmail.com.com"] := by
  refine ⟨fun hi hno => ?_, rfl, fun hcur hlen => ?_, by decide, by decide⟩
  · rw [assume_subdomains]
    have hi' : i < (col.map pyStrip).length := by
      rw [List.length_map]
      exact hi
    have hi2 : i < ((col.map pyStrip).map domain_and_subdomain).length := by
      rw [List.length_map]
      exact hi'
    have hstrip : (col.map pyStrip).getD i [] = pyStrip (col.getD i []) :=
      getD_map_lt pyStrip hi [] []
    have hdand : ((col.map pyStrip).map domain_and_subdomain).getD i []
        = domain_and_subdomain (pyStrip (col.getD i [])) := by
      rw [getD_map_lt domain_and_subdomain hi' [] [], hstrip]
    have hflag : ((((col.map pyStrip).map domain_and_subdomain).map
        (fun x => x.length == 1)).getD i false) = false := by
      rw [getD_map_lt (fun x => x.length == 1) hi2 [] false, hdand]
      exact beq_eq_false_iff_ne.mpr hno
    rw [foldl_fillStep_getD _ _
      (by rw [List.length_map, List.length_map, List.length_map]) hi' hflag, hstrip]
  · have hib : i < noSub.length := by omega
    have e1 : noSub[i]? = some (noSub.getD i false) := by
      rw [List.getD_eq_getElem?_getD, List.getElem?_eq_getElem hib]
      rfl
    have e2 : cur[i]? = some (cur.getD i []) := by
      rw [List.getD_eq_getElem?_getD, List.getElem?_eq_getElem hcur]
      rfl
    have hz : (fillStep noSub dands cur label)[i]? = some (
        if noSub.getD i false && containsSub label (cur.getD i []) then
          (if endsWithChar '.' (cur.getD i []) then cur.getD i [] ++ bestLabel dands label
           else cur.getD i [] ++ '.' :: bestLabel dands label)
        else cur.getD i []) := by
      rw [fillStep, List.getElem?_zipWith, e1, e2]
    rw [List.getD_eq_getElem?_getD, hz]
    rfl

/-- C1 counterexample: on the spec's own scenario column the code changes
nothing — `"a@foo.com"` does not become `"a@mail.foo.com"`. -/
theorem C1_subdomain_cex :
    assume_subdomains [pys "a@foo.com", pys "b@mail.foo.com"]
        = [pys "a@foo.com", pys "b@mail.foo.com"]
    ∧ pys "a@foo.com" ≠ pys "a@mail.foo.com" := by decide

/-- C1 witness: the amended theorem applied at concrete inputs — the frame
half on the spec's scenario column at index 0, one concrete `fillStep`
iteration appending the inferred label, and the corrected scenario. -/
theorem C1_subdomain_witness :
    (assume_subdomains [pys "a@foo.com", pys "b@mail.foo.com"]).getD 0 []
        = pyStrip (pys "a@foo.com")
    ∧ (fillStep [true, false] [[pys "gmail"], [pys "gmail", pys "com"]]
          [pys "a@gmail", pys "b@gmail.com"] (pys "gmail")).getD 0 []
        = pys "a@gmail" ++ '.'
            :: bestLabel [[pys "gmail"], [pys "gmail", pys "com"]] (pys "gmail")
    ∧ assume_subdomains [pys "a@gmail", pys "b@gmail.com"]
        = [pys "a@gmail.com", pys "b@gmail.com"] := by
  have h1 := C1_subdomain_amended [pys "a@foo.com", pys "b@mail.foo.com"]
    [pys "a@gmail", pys "b@gmail.com"] [true, false]
    [[pys "gmail"], [pys "gmail", pys "com"]] (pys "gmail") 0
  refine ⟨h1.1 (by decide) (by decide), ?_, h1.2.2.2.1⟩
  have h2 := h1.2.2.1 (by decide) (by decide)
  rw [h2]
  decide

/-- C2 (corrected).  The claim says the Country, Income and Age normalizers are
all idempotent on already-cleaned values.  Country and Age are; Income is not,
because the sentinel `"unknown"` produced by the first pass contains no decimal
point, so a second pass appends `".00"` to it.  Amended: Country and Age are
idempotent on every value, and Income is idempotent on every value whose
cleaned form is not the sentinel `"unknown"`. -/
theorem C2_idempotence_amended (s : PyStr) :
    clean_country (clean_country s) = clean_country s
    ∧ clean_age (clean_age s) = clean_age s
    ∧ (clean_income s ≠ pys "unknown" →
        clean_income (clean_income s) = clean_income s) :=
  ⟨clean_country_idem s, clean_age_idem s, clean_income_idem s⟩

/-- C2 counterexample: the originally-empty income value is cleaned to
`"unknown"`, and a second run of the Income normalizer turns it into
`"unknown.00"` — not a no-op. -/
theorem C2_idempotence_cex :
    clean_income (pys "") = pys "unknown"
    ∧ clean_income (clean_income (pys "")) = pys "unknown.00"
    ∧ clean_income (clean_income (pys "")) ≠ clean_income (pys "") := by decide

/-- C2 witness: the amended theorem applied at the value `"us"`. -/
theorem C2_idempotence_witness :
    clean_country (clean_country (pys "us")) = clean_country (pys "us")
    ∧ clean_age (clean_age (pys "us")) = clean_age (pys "us")
    ∧ clean_income (clean_income (pys "us")) = clean_income (pys "us") := by
  have h := C2_idempotence_amended (pys "us")
  exact ⟨h.1, h.2.1, h.2.2 (by decide)⟩

/-- C5 (corrected).  The claim says that after the Field Repair Pass every
data row has the header's field count, for every input table.  This fails:
the pass only shrinks rows matching the numeric pattern by one field and
leaves the rest unchanged, so e.g. a well-formed 7-field row whose fields 4
and 5 are both numeric is wrongly merged down to 6 fields.  Amended: a row
the pass returns keeps its field count when it does not match the numeric
pattern and loses exactly one field when it does — the header-count invariant
therefore holds only for tables whose rows entered in one of those two
compatible shapes. -/
theorem C5_field_count_amended (row out : List PyStr) (h : repair_row row = some out) :
    (incomePattern row = true → out.length + 1 = row.length)
    ∧ (incomePattern row = false → out = row) := by
  have hc := repair_row_char row
  rw [h] at hc
  by_cases h4 : 4 < row.length
  · rw [if_pos h4] at hc
    by_cases c1 : isnumeric (pyStrip (removeChar '$' (row.getD 4 []))) = true
    · rw [if_pos c1] at hc
      by_cases h5 : 5 < row.length
      · rw [if_pos h5] at hc
        by_cases c2 : isnumeric (pyStrip (row.getD 5 [])) = true
        · rw [if_pos c2] at hc
          by_cases h6 : 6 < row.length
          · rw [if_pos h6] at hc
            have hout : out =
                ((row.set 4 (row.getD 4 [] ++ row.getD 5 [])).set 5 (row.getD 6 [])).eraseIdx 6 :=
              Option.some.inj hc
            have hpat : incomePattern row = true := by
              rw [incomePattern, c1, c2]
              rfl
            refine ⟨fun _ => ?_, fun hp => ?_⟩
            · rw [hout, List.length_eraseIdx]
              simp only [List.length_set]
              rw [if_pos h6]
              omega
            · rw [hpat] at hp
              simp at hp
          · rw [if_neg h6] at hc
            exact absurd hc (by simp)
        · rw [if_neg c2] at hc
          have hout : out = row := Option.some.inj hc
          have c2f : isnumeric (pyStrip (row.getD 5 [])) = false := by
            simp only [Bool.not_eq_true] at c2
            exact c2
          have hpat : incomePattern row = false := by
            rw [incomePattern, c2f, Bool.and_false]
          refine ⟨fun hp => ?_, fun _ => hout⟩
          rw [hpat] at hp
          simp at hp
      · rw [if_neg h5] at hc
        exact absurd hc (by simp)
    · rw [if_neg c1] at hc
      have hout : out = row := Option.some.inj hc
      have c1f : isnumeric (pyStrip (removeChar '$' (row.getD 4 []))) = false := by
        simp only [Bool.not_eq_true] at c1
        exact c1
      have hpat : incomePattern row = false := by
        rw [incomePattern, c1f, Bool.false_and]
      refine ⟨fun hp => ?_, fun _ => hout⟩
      rw [hpat] at hp
      simp at hp
  · rw [if_neg h4] at hc
    exact absurd hc (by simp)

/-- C5 counterexample: a table whose data row has 7 fields like its header
but matches the numeric pattern; after the pass the row has 6 fields while
the header keeps 7, breaking the claimed invariant. -/
theorem C5_field_count_cex :
    extract_income
      [[pys "A", pys "B", pys "C", pys "D", pys "E", pys "F", pys "G"],
       [pys "a", pys "b", pys "c", pys "d", pys "$1", pys "200", pys "x"]]
    = some [[pys "A", pys "B", pys "C", pys "D", pys "E", pys "F", pys "G"],
            [pys "a", pys "b", pys "c", pys "d", pys "$1200", pys "x"]]
    ∧ [pys "a", pys "b", pys "c", pys "d", pys "$1200", pys "x"].length
        ≠ [pys "A", pys "B", pys "C", pys "D", pys "E", pys "F", pys "G"].length := by
  decide

/-- C5 witness: the amended theorem applied to a concrete matching row. -/
theorem C5_witness :
    [pys "a", pys "b", pys "c", pys "d", pys "$1200", pys "x"].length + 1
      = [pys "a", pys "b", pys "c", pys "d", pys "$1", pys "200", pys "x"].length :=
  (C5_field_count_amended
    [pys "a", pys "b", pys "c", pys "d", pys "$1", pys "200", pys "x"]
    [pys "a", pys "b", pys "c", pys "d", pys "$1200", pys "x"]
    (by decide)).1 (by decide)

/-- C6 (corrected).  The claim says values with a `$` prefix and no decimal
point always come out as the stripped value followed by `".00"`.  That fails
for the value `"$"`: stripping leaves the empty string, `".00"` is appended,
and the sentinel substitution then yields `"unknown"` rather than `".00"`.
Amended: every `$` character is removed; if the stripped value is empty or
exactly `".00"` the output is the sentinel `"unknown"`; if the stripped value
is nonempty and the original had no decimal point the output is the stripped
value followed by `".00"`; if the original has a decimal point and the
stripped value is not `".00"` the output is the stripped value itself. -/
theorem C6_income_amended (s : PyStr) :
    ((removeChar '$' s = [] ∨ removeChar '$' s = pys ".00") →
      clean_income s = pys "unknown")
    ∧ (removeChar '$' s ≠ [] → '.' ∉ s →
        clean_income s = removeChar '$' s ++ pys ".00")
    ∧ ('.' ∈ s → removeChar '$' s ≠ pys ".00" →
        clean_income s = removeChar '$' s) := by
  refine ⟨fun h => ?_, fun h1 h2 => ?_, fun h1 h2 => ?_⟩
  · rcases h with h | h
    · rw [clean_income, incomeStripDollar, h]
      decide
    · rw [clean_income, incomeStripDollar, h]
      decide
  · have hd : '.' ∉ removeChar '$' s := fun hm => h2 (mem_removeChar.mp hm).1
    rw [clean_income, incomeStripDollar, incomeAppendCents, if_neg hd, incomeSentinel,
      if_neg ?_]
    intro heq
    rw [show pys ".00" = [] ++ pys ".00" from rfl] at heq
    exact h1 (List.append_cancel_right heq)
  · have hd : '.' ∈ removeChar '$' s := mem_removeChar.mpr ⟨h1, by decide⟩
    rw [clean_income, incomeStripDollar, incomeAppendCents, if_pos hd, incomeSentinel,
      if_neg h2]

/-- C6 counterexample: the value `"$"` has a `$` prefix and no decimal point,
yet its output is `"unknown"`, not the stripped value followed by `".00"`. -/
theorem C6_income_cex :
    clean_income (pys "$") = pys "unknown"
    ∧ removeChar '$' (pys "$") ++ pys ".00" = pys ".00"
    ∧ clean_income (pys "$") ≠ removeChar '$' (pys "$") ++ pys ".00" := by decide

/-- C6 witness: the amended theorem applied at `"$5"`. -/
theorem C6_income_witness :
    clean_income (pys "$5") = removeChar '$' (pys "$5") ++ pys ".00" :=
  (C6_income_amended (pys "$5")).2.1 (by decide) (by decide)

/-- C7 (confirmed, date parser modelled from the spec).  Every value is
mapped through the day-first parser and reformatted `YYYY-MM-DD`; on parse
failure the output is the sentinel `"unknown"` and the pass never aborts
(the function is total: it always returns a list of the same length).  In
particular `"04/03/2020"` becomes `"2020-03-04"`. -/
theorem C7_dates (ds : List PyStr) (i : Nat) (h : i < ds.length) :
    (standardize_dates ds).length = ds.length
    ∧ (parseDayfirst (ds.getD i []) = none →
        (standardize_dates ds).getD i [] = pys "unknown")
    ∧ (∀ y m d, parseDayfirst (ds.getD i []) = some (y, m, d) →
        (standardize_dates ds).getD i [] = fmtDate y m d)
    ∧ standardize_dates [pys "04/03/2020"] = [pys "2020-03-04"] := by
  refine ⟨List.length_map _ _, fun hp => ?_, fun y m d hp => ?_, by decide⟩
  · rw [standardize_dates, getD_map_lt _ h [] [], hp]
  · rw [standardize_dates, getD_map_lt _ h [] [], hp]

/-- C7 witness: the theorem applied to a malformed date (sentinel, recovered)
and to the spec's round-trip example. -/
theorem C7_dates_witness :
    (standardize_dates [pys "31/31/2020"]).getD 0 [] = pys "unknown"
    ∧ (standardize_dates [pys "04/03/2020"]).getD 0 [] = pys "2020-03-04" := by
  have h := C7_dates [pys "31/31/2020"] 0 (by decide)
  have h2 := C7_dates [pys "04/03/2020"] 0 (by decide)
  exact ⟨h.2.1 (by decide), h2.2.2.1 2020 3 4 (by decide)⟩

/-- C8 (corrected).  The claim lists eight USA aliases and says everything
else passes through unchanged.  Two divergences: the second replacement map
also contains the key `"USA\r"` (so `"USA\r"` becomes `"USA"` although `"USA"`
is not among the claim's aliases), and the `\n`-stripping of line 101 changes
every value containing `"\n"`, matching or not.  Amended: a value whose
`\n`-stripped form is a key of either alias map (the eight aliases, their
trailing-carriage-return variants, and `"USA\r"`) becomes exactly `"USA"`;
every other value passes through with its `\n` characters stripped but
otherwise unchanged. -/
theorem C8_country_amended (s : PyStr) :
    clean_country s =
      if removeChar '\n' s ∈ country_usa_map.map Prod.fst
          ∨ removeChar '\n' s ∈ country_usa_map2.map Prod.fst
        then pys "USA" else removeChar '\n' s := by
  by_cases h1 : removeChar '\n' s ∈ country_usa_map.map Prod.fst
  · rw [if_pos (Or.inl h1), clean_country,
      country_map_values (applyMap_mem_snd_of_mem h1)]
    decide
  · by_cases h2 : removeChar '\n' s ∈ country_usa_map2.map Prod.fst
    · rw [if_pos (Or.inr h2), clean_country, applyMap_eq_of_not_mem h1]
      exact country_map2_values (applyMap_mem_snd_of_mem h2)
    · rw [if_neg (by rintro (h | h) <;> [exact h1 h; exact h2 h]), clean_country,
        applyMap_eq_of_not_mem h1, applyMap_eq_of_not_mem h2]

/-- C8 counterexample: `"USA\r"` matches none of the claim's eight aliases yet
is rewritten to `"USA"`, and the non-matching value `"Pol\nand"` is changed to
`"Poland"` instead of passing through unchanged. -/
theorem C8_country_cex :
    clean_country (pys "USA\r") = pys "USA"
    ∧ pys "USA" ≠ pys "USA\r"
    ∧ clean_country (pys "Pol\nand") = pys "Poland"
    ∧ pys "Poland" ≠ pys "Pol\nand" := by decide

/-- C9 (confirmed).  The email step is the collapse of doubled `@@` followed
by subdomain inference followed by the exact-match sentinel substitution; the
collapse leaves no doubled `@@` in any value without a tripled `@@@`; the
sentinel substitution turns exactly the value `".com"` into `"unknown"` and
leaves every other value — in particular values merely ending in `".com"` —
untouched. -/
theorem C9_email_combined (col : List PyStr) (s t : PyStr) :
    clean_email_column col
        = (assume_subdomains (col.map collapseAtAt)).map emailSentinel
    ∧ (hasTripleAt s = false → hasDoubleAt (collapseAtAt s) = false)
    ∧ emailSentinel (pys ".com") = pys "unknown"
    ∧ (t ≠ pys ".com" → emailSentinel t = t) := by
  refine ⟨rfl, collapse_no_double s, by decide, fun ht => ?_⟩
  rw [emailSentinel, if_neg ht]

/-- C9 witness: the theorem applied to the doubled-`@@` scenario value and to
a value that merely ends in `".com"`. -/
theorem C9_email_witness :
    clean_email_column [pys "j@@gmail.com"]
        = (assume_subdomains ([pys "j@@gmail.com"].map collapseAtAt)).map emailSentinel
    ∧ hasDoubleAt (collapseAtAt (pys "j@@gmail.com")) = false
    ∧ emailSentinel (pys ".com") = pys "unknown"
    ∧ emailSentinel (pys "x.com") = pys "x.com" := by
  have h := C9_email_combined [pys "j@@gmail.com"] (pys "j@@gmail.com") (pys "x.com")
  exact ⟨h.1, h.2.1 (by decide), h.2.2.1, h.2.2.2 (by decide)⟩

/-- C10 (confirmed).  Each per-column step of `clean_data` that succeeds
modifies only its own column: for every other column name the column read
before the step equals the column read after it, and the header is unchanged
(for the Country step, unchanged after the rename, which itself renames only
the `"Country\n"`/`"Country\r\n"` header entries). -/
theorem C10_column_frame (t t' : Table) (name' : PyStr) :
    (step_income t = some t' → name' ≠ pys "Income" →
      getCol t' name' = getCol t name' ∧ t'.header = t.header)
    ∧ (step_name t = some t' → name' ≠ pys "Name" →
      getCol t' name' = getCol t name' ∧ t'.header = t.header)
    ∧ (step_email t = some t' → name' ≠ pys "Email" →
      getCol t' name' = getCol t name' ∧ t'.header = t.header)
    ∧ (step_date t = some t' → name' ≠ pys "Date of Birth" →
      getCol t' name' = getCol t name' ∧ t'.header = t.header)
    ∧ (step_age t = some t' → name' ≠ pys "Age" →
      getCol t' name' = getCol t name' ∧ t'.header = t.header)
    ∧ (step_country t = some t' → name' ≠ pys "Country" → name' ≠ pys "Country\n" →
        name' ≠ pys "Country\r\n" →
      getCol t' name' = getCol t name' ∧ t'.header = (rename_country t).header)
    ∧ (∀ j : Nat, t.header.getD j [] ≠ pys "Country\n" →
        t.header.getD j [] ≠ pys "Country\r\n" →
        (rename_country t).header.getD j [] = t.header.getD j []) := by
  refine ⟨fun hs hn => setColWith_frame (fun colv => List.length_map _ _) hs hn,
    fun hs hn => setColWith_frame (fun colv => List.length_map _ _) hs hn,
    fun hs hn => ?_, fun hs hn => ?_,
    fun hs hn => setColWith_frame (fun colv => List.length_map _ _) hs hn,
    fun hs hn1 hn2 hn3 => ?_,
    fun j h1 h2 => rename_country_header_getD t j h1 h2⟩
  · exact setColWith_frame (fun colv => by
      rw [clean_email_column, List.length_map, assume_subdomains_length,
        List.length_map]) hs hn
  · exact setColWith_frame (fun colv => by
      rw [standardize_dates, List.length_map]) hs hn
  · have h := setColWith_frame (fun colv => List.length_map _ _) hs hn1
    exact ⟨h.1.trans (getCol_rename hn1 hn2 hn3), h.2⟩

/-- C10 witness: the Age step on a two-column table leaves the other column
and the header untouched. -/
theorem C10_column_frame_witness :
    getCol { header := [pys "Age", pys "X"], rows := [[pys "unknown", pys "v"]] }
        (pys "X")
      = getCol { header := [pys "Age", pys "X"], rows := [[pys "", pys "v"]] } (pys "X")
    ∧ ({ header := [pys "Age", pys "X"], rows := [[pys "unknown", pys "v"]] } : Table).header
      = ({ header := [pys "Age", pys "X"], rows := [[pys "", pys "v"]] } : Table).header :=
  (C10_column_frame { header := [pys "Age", pys "X"], rows := [[pys "", pys "v"]] }
    { header := [pys "Age", pys "X"], rows := [[pys "unknown", pys "v"]] }
    (pys "X")).2.2.2.2.1 (by decide) (by decide)

end LambdaCsv
